import Mathlib

/-!
Verification of the ProMaster → Cin7 importer (src/app.py, src/potest.py,
src/cache_products.py).

The pipeline's pure core is embedded shallowly: pandas cells become an
inductive `Cell`, Python strings become Lean `String`/`List Char`, Python
floats become `ℚ`, fallible builders return `Except String _`, and the
network collaborators (Cin7 REST endpoints) are passed in explicitly as
functions, mirroring the dependency-injection advice of the design notes.
-/

namespace PM7

set_option maxRecDepth 100000

/-- A pandas cell that is either missing (None/NaN) or holds a string. -/
inductive Cell where
  | na : Cell
  | str (s : String) : Cell
deriving DecidableEq

/-- Whitespace stripped by Python `str.strip()` (ASCII whitespace). -/
def pyIsSpace (c : Char) : Bool :=
  c == ' ' || c == '\t' || c == '\n' || c == '\r' || c == '\x0b' || c == '\x0c'

/-- Python `str.strip()`: drop leading and trailing whitespace. -/
def pyStripList (l : List Char) : List Char :=
  ((l.dropWhile pyIsSpace).reverse.dropWhile pyIsSpace).reverse

/-- ASCII uppercasing of one character, modelling Python `str.upper()` on the
code points this pipeline manipulates. -/
def pyUpperChar (c : Char) : Char :=
  if 97 ≤ c.toNat ∧ c.toNat ≤ 122 then Char.ofNat (c.toNat - 32) else c

/-- Python `str.upper()` over a whole string. -/
def pyUpperList (l : List Char) : List Char := l.map pyUpperChar

/-- Boolean test that the first list is a prefix of the second. -/
def listPrefixEq : List Char → List Char → Bool
  | [], _ => true
  | _ :: _, [] => false
  | a :: as, b :: bs => a == b && listPrefixEq as bs

/-- Python `str.replace(pat, repl)`: scan left to right, replacing
non-overlapping occurrences; `fuel` bounds the recursion and any
`fuel ≥ length` computes the replacement. -/
def replaceFuel (pat repl : List Char) : Nat → List Char → List Char
  | _, [] => []
  | 0, l => l
  | fuel + 1, c :: cs =>
    if pat ≠ [] ∧ listPrefixEq pat (c :: cs) = true then
      repl ++ replaceFuel pat repl fuel ((c :: cs).drop pat.length)
    else
      c :: replaceFuel pat repl fuel cs

/-- Python `str.replace(pat, repl)` on a whole string. -/
def replaceAll (pat repl : List Char) (l : List Char) : List Char :=
  replaceFuel pat repl l.length l

/-- Character class kept by app.py `clean_code`: the raw-string regex
`[^A-Z0-9/\\-]` deletes everything except uppercase letters, digits,
the slash, the (escaped) backslash and the hyphen. -/
def appAllowed (c : Char) : Bool :=
  (65 ≤ c.toNat && c.toNat ≤ 90) || (48 ≤ c.toNat && c.toNat ≤ 57) ||
    c == '/' || c == '\\' || c == '-'

/-- Character class kept by potest.py `clean_code`: regex `[^A-Z0-9/\-]`
deletes everything except uppercase letters, digits, slash and hyphen. -/
def potAllowed (c : Char) : Bool :=
  (65 ≤ c.toNat && c.toNat ≤ 90) || (48 ≤ c.toNat && c.toNat ≤ 57) ||
    c == '/' || c == '-'

/-- app.py `clean_code`: NaN to empty, strip, upper, en/em dash to hyphen,
then delete characters outside the allow-list. -/
def clean_code (x : Cell) : String :=
  match x with
  | Cell.na => ""
  | Cell.str s =>
    let l := pyUpperList (pyStripList s.data)
    let l := replaceAll ['–'] ['-'] l
    let l := replaceAll ['—'] ['-'] l
    String.mk (l.filter appAllowed)

/-- potest.py `clean_code`: identical to the app.py variant except its regex
class does not contain the backslash. -/
def potest_clean_code (x : Cell) : String :=
  match x with
  | Cell.na => ""
  | Cell.str s =>
    let l := pyUpperList (pyStripList s.data)
    let l := replaceAll ['–'] ['-'] l
    let l := replaceAll ['—'] ['-'] l
    String.mk (l.filter potAllowed)

/-- Characters kept by `clean_supplier_name`: regex `[^A-Z0-9]`. -/
def supAllowed (c : Char) : Bool :=
  (65 ≤ c.toNat && c.toNat ≤ 90) || (48 ≤ c.toNat && c.toNat ≤ 57)

/-- app.py `clean_supplier_name`: empty stays empty, otherwise upper, strip,
`&` to `AND`, `LIMITED` to `LTD`, then keep only `A-Z0-9`. -/
def clean_supplier_name (name : String) : String :=
  if name = "" then ""
  else
    let l := pyStripList (pyUpperList name.data)
    let l := replaceAll ['&'] "AND".data l
    let l := replaceAll "LIMITED".data "LTD".data l
    String.mk (l.filter supAllowed)

/-- Length of the common prefix of two character lists. -/
def commonPrefixLen : List Char → List Char → Nat
  | a :: as, b :: bs => if a = b then commonPrefixLen as bs + 1 else 0
  | _, _ => 0

/-- Length of the matching run of `a`/`b` starting at `i`/`j`, confined to the
windows `[i, ahi)` and `[j, bhi)`. -/
def winLen (a b : List Char) (i j ahi bhi : Nat) : Nat :=
  commonPrefixLen ((a.drop i).take (ahi - i)) ((b.drop j).take (bhi - j))

/-- All start positions scanned by difflib `find_longest_match` over the
windows `[alo, ahi) × [blo, bhi)`, in its scan order. -/
def flmCandidates (alo ahi blo bhi : Nat) : List (Nat × Nat) :=
  (List.range' alo (ahi - alo)).flatMap
    (fun i => (List.range' blo (bhi - blo)).map (fun j => (i, j)))

/-- difflib `SequenceMatcher.find_longest_match` (no junk, short inputs so
autojunk is inert): the longest matching block `(i, j, size)`, ties broken by
the earliest start in `a`, then the earliest start in `b`. -/
def findLongestMatch (a b : List Char) (alo ahi blo bhi : Nat) : Nat × Nat × Nat :=
  (flmCandidates alo ahi blo bhi).foldl
    (fun best ij =>
      let k := winLen a b ij.1 ij.2 ahi bhi
      if best.2.2 < k then (ij.1, ij.2, k) else best)
    (alo, blo, 0)

/-- Total matched size of difflib `get_matching_blocks` over a window,
recursing left and right of each longest block; `fuel` bounds the recursion
depth and any `fuel` above the window sizes computes the recursion. -/
def matchingSizeFuel (a b : List Char) : Nat → Nat → Nat → Nat → Nat → Nat
  | 0, _, _, _, _ => 0
  | fuel + 1, alo, ahi, blo, bhi =>
    let t := findLongestMatch a b alo ahi blo bhi
    if t.2.2 = 0 then 0
    else
      matchingSizeFuel a b fuel alo t.1 blo t.2.1 + t.2.2 +
        matchingSizeFuel a b fuel (t.1 + t.2.2) ahi (t.2.1 + t.2.2) bhi

/-- Sum of the matching-block sizes of difflib `get_matching_blocks`. -/
def matchingTotal (a b : List Char) : Nat :=
  matchingSizeFuel a b (a.length + b.length + 1) 0 a.length 0 b.length

/-- difflib `SequenceMatcher(None, a, b).ratio()`: `2M / (len a + len b)`,
and `1` when both strings are empty. -/
def seqRatio (a b : String) : ℚ :=
  let T : Nat := a.length + b.length
  if T = 0 then 1 else (2 * (matchingTotal a.data b.data) : ℚ) / (T : ℚ)

/-- One row of the cached supplier table `suppliers_df`
(`load_all_suppliers`): contact id, raw company name, and the normalized
`company_clean` column. -/
structure SupplierRow where
  id : Int
  company : String
  company_clean : String
deriving DecidableEq, Inhabited

/-- Result of a successful supplier match: contact id and the abbreviation
used in PO references. -/
structure SupplierMatch where
  id : Option Int
  abbr : String
deriving DecidableEq, Inhabited

/-- The scoring loop of app.py `get_supplier_details`: starting from
`(best_id = None, best_score = 0, best_name = "")`, each supplier row whose
score is strictly greater than the current best replaces it. -/
def supplierFold (cleaned : String) (sups : List SupplierRow) :
    Option Int × ℚ × String :=
  sups.foldl
    (fun best row =>
      let score := seqRatio cleaned row.company_clean
      if best.2.1 < score then (some row.id, score, row.company) else best)
    (none, 0, "")

/-- Message of the exception raised by app.py `get_supplier_details` when no
candidate passes the acceptance test. -/
def supplierFailMsg (name : String) (best : Option Int × ℚ × String) : String :=
  "Supplier match failed for " ++ name ++ ". Closest Cin7 supplier: " ++
    best.2.2 ++ " (score=" ++ toString best.2.1.num ++ "/" ++
    toString best.2.1.den ++ ")"

/-- app.py `get_supplier_details`: a falsy name (None/NaN or the empty
string) short-circuits to `{id: None, abbr: ""}`; otherwise the best-scoring
supplier is accepted when its id is truthy and its score is at least 0.40,
and an exception is raised otherwise. -/
def get_supplier_details (sups : List SupplierRow) (name : Option String) :
    Except String SupplierMatch :=
  match name with
  | none => Except.ok ⟨none, ""⟩
  | some s =>
    if s = "" then Except.ok ⟨none, ""⟩
    else
      let cleaned := clean_supplier_name s
      let best := supplierFold cleaned sups
      match best.1 with
      | some bid =>
        if bid ≠ 0 ∧ (2 : ℚ) / 5 ≤ best.2.1 then
          Except.ok ⟨some bid, if cleaned = "" then "SUPP" else cleaned.take 4⟩
        else Except.error (supplierFailMsg s best)
      | none => Except.error (supplierFailMsg s best)

/-- Branch id for Hamilton (secrets default, app.py line 24). -/
def branch_Hamilton : Int := 230

/-- Branch id for Avondale (secrets default, app.py line 25). -/
def branch_Avondale : Int := 3

/-- Default customer member id for the Hamilton branch (app.py line 27). -/
def branch_Hamilton_default_member : Int := 230

/-- Default customer member id for the Avondale branch (app.py line 28). -/
def branch_Avondale_default_member : Int := 3

/-- app.py `resolve_member_id`: keep a truthy, non-zero member id, otherwise
fall back to the branch-specific default customer id. -/
def resolve_member_id (member_id : Option Int) (branch : String) : Int :=
  match member_id with
  | some m =>
    if m ≠ 0 then m
    else if branch = "Hamilton" then branch_Hamilton_default_member
    else branch_Avondale_default_member
  | none =>
    if branch = "Hamilton" then branch_Hamilton_default_member
    else branch_Avondale_default_member

/-- One outbound order line `{code, qty, unitPrice}`. -/
structure LineItem where
  code : String
  qty : ℚ
  unitPrice : ℚ
deriving DecidableEq, Inhabited

/-- One row of the edited Sales-Order table (`so_edit`): the columns read by
`build_sales_payload` and the `Order Ref` grouping key. -/
structure SoRow where
  orderRef : String
  branch : String
  memberId : Option Int
  salesRep : String
  company : String
  projectName : String
  internalComments : String
  customerPoNo : String
  etd : String
  itemCode : String
  overrideCode : String
  itemQty : ℚ
  itemCost : ℚ
deriving DecidableEq, Inhabited

/-- The Sales-Order document POSTed to `v1/SalesOrders`. The `salesPersonId`
field holds the group's `Sales Rep` cell when that cell is truthy and the
global `added_by_id` otherwise, exactly as in the source. -/
structure SoPayload where
  isApproved : Bool
  reference : String
  branchId : Int
  enteredById : Option Int
  salesPersonId : String ⊕ Option Int
  memberId : Int
  company : String
  projectName : String
  internalComments : String
  customerOrderNo : String
  estimatedDeliveryDate : String
  currencyCode : String
  taxStatus : String
  taxRate : ℚ
  stage : String
  priceTier : String
  lineItems : List LineItem
deriving DecidableEq, Inhabited

/-- app.py `build_sales_payload`: header fields from the group's first row,
`memberId` through `resolve_member_id`, line items using the override code
when it is truthy and the item code otherwise. Returns the singleton list
the source wraps around the document. -/
def build_sales_payload (added_by_id : Option Int) (ref : String)
    (grp : List SoRow) : List SoPayload :=
  let head := grp.headI
  let branch_id := if head.branch = "Hamilton" then branch_Hamilton else branch_Avondale
  let resolved_mem := resolve_member_id head.memberId head.branch
  let sales_rep : String ⊕ Option Int :=
    if head.salesRep = "" then Sum.inr added_by_id else Sum.inl head.salesRep
  let line_items := grp.map (fun r =>
    LineItem.mk (if r.overrideCode = "" then r.itemCode else r.overrideCode)
      r.itemQty r.itemCost)
  [{ isApproved := true
     reference := ref
     branchId := branch_id
     enteredById := added_by_id
     salesPersonId := sales_rep
     memberId := resolved_mem
     company := head.company
     projectName := head.projectName
     internalComments := head.internalComments
     customerOrderNo := head.customerPoNo
     estimatedDeliveryDate := head.etd ++ "T00:00:00Z"
     currencyCode := "NZD"
     taxStatus := "Excl"
     taxRate := 15
     stage := "New"
     priceTier := "Trade (NZD - Excl)"
     lineItems := line_items }]

/-- One BOM component as extracted by app.py `get_bom` from the
`v2/BomMasters` collaborator: `{code, quantity (qty, default 1),
unitPrice (unitCost, default 0)}`. -/
structure BomComponent where
  code : String
  quantity : ℚ
  unitPrice : ℚ
deriving DecidableEq, Inhabited

/-- One row of the edited Purchase-Order table (`final_po`): the columns read
by `build_po_payload` and the `Order Ref` grouping key. -/
structure PoRow where
  orderRef : String
  branch : String
  supplier : String
  itemCode : String
  overrideCode : String
  itemQty : ℚ
  itemCost : ℚ
  etd : String
deriving DecidableEq, Inhabited

/-- The Purchase-Order document POSTed to `v1/PurchaseOrders`. -/
structure PoPayload where
  reference : String
  supplierId : Option Int
  branchId : Int
  memberId : Option Int
  staffId : Option Int
  enteredById : Option Int
  deliveryAddress : String
  estimatedDeliveryDate : String
  isApproved : Bool
  lineItems : List LineItem
deriving DecidableEq, Inhabited

/-- The resolved code of a PO row: the override code when truthy, the
original item code otherwise (`r.get("Override Code") or r["Item Code"]`). -/
def poRowCode (r : PoRow) : String :=
  if r.overrideCode = "" then r.itemCode else r.overrideCode

/-- Line items produced for one PO row by app.py `build_po_payload`: the
resolved code must be in the product catalog (else the build raises); a code
with BOM components explodes into one line per component with
`qty = comp.quantity * qty_ordered` and the component's own `unitPrice`,
and a code without BOM yields itself with the row's own cost. -/
def poRowLines (products : List String) (bomT : String → List BomComponent)
    (r : PoRow) : Except String (List LineItem) :=
  let parent := poRowCode r
  if parent ∈ products then
    match bomT parent with
    | [] => Except.ok [LineItem.mk parent r.itemQty r.itemCost]
    | comps => Except.ok (comps.map (fun comp =>
        LineItem.mk comp.code (comp.quantity * r.itemQty) comp.unitPrice))
  else
    Except.error ("Invalid Override Code " ++ parent ++ " — not found in Products.csv")

/-- Sequential mapping over `Except`, modelling the Python for-loop that
raises at the first offending row. -/
def mapExcept (f : α → Except String β) : List α → Except String (List β)
  | [] => Except.ok []
  | a :: l =>
    match f a with
    | Except.error e => Except.error e
    | Except.ok b =>
      match mapExcept f l with
      | Except.error e => Except.error e
      | Except.ok bs => Except.ok (b :: bs)

/-- app.py `build_po_payload`: supplier fuzzy match first (its exception
propagates), then per-row validation and BOM explosion in row order, then the
final document, with the supplier id doubling as `memberId`. Returns the
singleton list the source wraps around the document. -/
def build_po_payload (products : List String) (sups : List SupplierRow)
    (bomT : String → List BomComponent) (added_by_id : Option Int)
    (ref : String) (grp : List PoRow) : Except String (List PoPayload) :=
  match get_supplier_details sups (some (grp.headI).supplier) with
  | Except.error e => Except.error e
  | Except.ok sup =>
    match mapExcept (poRowLines products bomT) grp with
    | Except.error e => Except.error e
    | Except.ok liness =>
      let head := grp.headI
      let branch_id := if head.branch = "Hamilton" then branch_Hamilton else branch_Avondale
      Except.ok
        [{ reference := ref
           supplierId := sup.id
           branchId := branch_id
           memberId := sup.id
           staffId := added_by_id
           enteredById := added_by_id
           deliveryAddress := "Hardware Direct Warehouse"
           estimatedDeliveryDate := head.etd ++ "T00:00:00Z"
           isApproved := true
           lineItems := liness.flatten }]

/-- Lexicographic comparison of character lists by code point, modelling
Python string comparison used by the pandas groupby key sort. -/
def charListLt : List Char → List Char → Bool
  | [], [] => false
  | [], _ :: _ => true
  | _ :: _, [] => false
  | a :: as, b :: bs => a.toNat < b.toNat || (a == b && charListLt as bs)

/-- Python string comparison on whole strings. -/
def strLt (a b : String) : Bool := charListLt a.data b.data

/-- Insertion of a key into a sorted key list (ascending string order). -/
def insertKey (s : String) : List String → List String
  | [] => [s]
  | t :: ts => if strLt s t then s :: t :: ts else t :: insertKey s ts

/-- Ascending sort of a key list. -/
def sortKeys (l : List String) : List String := l.foldr insertKey []

/-- Grouping keys of `df.groupby("Order Ref")`: the distinct keys in
ascending order, as pandas iterates them. -/
def groupKeys (keys : List String) : List String := sortKeys keys.dedup

/-- Keys of the Sales-Order groupby. -/
def soKeys (df : List SoRow) : List String := groupKeys (df.map SoRow.orderRef)

/-- Rows of one Sales-Order group. -/
def soGrp (df : List SoRow) (k : String) : List SoRow :=
  df.filter (fun r => r.orderRef == k)

/-- Keys of the Purchase-Order groupby. -/
def poKeys (df : List PoRow) : List String := groupKeys (df.map PoRow.orderRef)

/-- Rows of one Purchase-Order group. -/
def poGrp (df : List PoRow) (k : String) : List PoRow :=
  df.filter (fun r => r.orderRef == k)

/-- One per-group outcome record of the push loops: the `Order Ref`, the
`Success` flag, and either the raw `Response` text or the caught `Error`
message. -/
structure PushResult where
  orderRef : String
  success : Bool
  response : Option String
  error : Option String
deriving DecidableEq, Inhabited

/-- The body of one iteration of the app.py `push_sales_orders` loop: build
the payload, POST it, and record `Success = (status == 200)` with the raw
response text; any exception from the POST collaborator is caught and
recorded as a failed result. -/
def pushOneSO (added_by_id : Option Int)
    (post : List SoPayload → Except String (Int × String))
    (ref : String) (grp : List SoRow) : PushResult :=
  match post (build_sales_payload added_by_id ref grp) with
  | Except.ok (status, text) => ⟨ref, status == 200, some text, none⟩
  | Except.error e => ⟨ref, false, none, some e⟩

/-- app.py `push_sales_orders`: one result appended per `Order Ref` group,
in groupby order. -/
def push_sales_orders (added_by_id : Option Int)
    (post : List SoPayload → Except String (Int × String))
    (df : List SoRow) : List PushResult :=
  (soKeys df).foldl
    (fun results ref => results ++ [pushOneSO added_by_id post ref (soGrp df ref)])
    []

/-- The body of one iteration of the app.py `push_purchase_orders` loop: an
exception raised while building the payload or while POSTing it is caught and
recorded as a failed result for this group. -/
def pushOnePO (products : List String) (sups : List SupplierRow)
    (bomT : String → List BomComponent) (added_by_id : Option Int)
    (post : List PoPayload → Except String (Int × String))
    (ref : String) (grp : List PoRow) : PushResult :=
  match build_po_payload products sups bomT added_by_id ref grp with
  | Except.error e => ⟨ref, false, none, some e⟩
  | Except.ok payload =>
    match post payload with
    | Except.ok (status, text) => ⟨ref, status == 200, some text, none⟩
    | Except.error e => ⟨ref, false, none, some e⟩

/-- app.py `push_purchase_orders`: one result appended per `Order Ref`
group, in groupby order. -/
def push_purchase_orders (products : List String) (sups : List SupplierRow)
    (bomT : String → List BomComponent) (added_by_id : Option Int)
    (post : List PoPayload → Except String (Int × String))
    (df : List PoRow) : List PushResult :=
  (poKeys df).foldl
    (fun results ref =>
      results ++ [pushOnePO products sups bomT added_by_id post ref (poGrp df ref)])
    []

/-- The Purchase-Order documents that actually reach `requests.post` during
`push_purchase_orders`: exactly the payloads of the groups whose build did
not raise, in push order. -/
def poPosted (products : List String) (sups : List SupplierRow)
    (bomT : String → List BomComponent) (added_by_id : Option Int)
    (df : List PoRow) : List PoPayload :=
  (poKeys df).foldl
    (fun acc ref =>
      match build_po_payload products sups bomT added_by_id ref (poGrp df ref) with
      | Except.ok payload => acc ++ payload
      | Except.error _ => acc)
    []

/-- First substitute registered for a code in the Substitutes table
(`subs.loc[subs["Code"] == orig, "Substitute"].iloc[0]`). -/
def lookupSub (subs : List (String × String)) (c : String) : Option String :=
  (subs.find? (fun p => p.1 == c)).map Prod.snd

/-- The hit list of the substitution pass: the rows of the uploaded sheet
whose (already normalized) part code occurs in the substitution table,
computed once from the original codes before any swap. -/
def subsHits (pm : List String) (subs : List (String × String)) : List String :=
  pm.filter (fun c => (subs.map Prod.fst).contains c)

/-- One accepted swap of the substitution loop:
`pm.loc[pm["PartCode"] == orig, "PartCode"] = sub` rewrites every row whose
current code equals `orig`. -/
def subStep (cur : List String) (orig sub : String) : List String :=
  cur.map (fun c => if c = orig then sub else c)

/-- The substitution loop of app.py (lines 385-393): iterate the hit rows of
the original sheet; for each hit whose radio decision is `Swap`, rewrite all
rows currently carrying that original code to its substitute. -/
def applySubs (pm : List String) (subs : List (String × String))
    (swap : String → Bool) : List String :=
  (subsHits pm subs).foldl
    (fun cur orig =>
      match lookupSub subs orig with
      | some sub => if swap orig then subStep cur orig sub else cur
      | none => cur)
    pm

/-- One expanded line of potest.py `expand_product_with_bom`. -/
structure ExpandedItem where
  itemCode : String
  qty : ℚ
deriving DecidableEq, Inhabited

/-- One BOM component as extracted by potest.py `get_bom_for_product`:
`{componentCode, qty (default 1.0)}`. -/
structure BomEntry where
  componentCode : String
  qty : ℚ
deriving DecidableEq, Inhabited

/-- potest.py `expand_product_with_bom`: a code without BOM returns itself at
the ordered quantity; a code with BOM returns one entry per component at
`qty * component qty`. -/
def expand_product_with_bom (bomT : String → List BomEntry) (code : String)
    (qty : ℚ) : List ExpandedItem :=
  match bomT code with
  | [] => [ExpandedItem.mk code qty]
  | bom => bom.map (fun c => ExpandedItem.mk c.componentCode (qty * c.qty))

/-- Modelled from the spec: the allow-list claimed for `clean_code` output —
uppercase alphanumerics, slash and hyphen (claim C6). -/
def specCodeAllowed (c : Char) : Bool :=
  (65 ≤ c.toNat && c.toNat ≤ 90) || (48 ≤ c.toNat && c.toNat ≤ 57) ||
    c == '/' || c == '-'

/-- Modelled from the spec: alphabetic character test used by the claimed
abbreviation rule, first four alphabetic characters (claim C8). -/
def specAlphaChar (c : Char) : Bool :=
  (65 ≤ c.toNat && c.toNat ≤ 90) || (97 ≤ c.toNat && c.toNat ≤ 122)

/-! ## Helper lemmas -/

theorem foldl_append_eq_map {α β : Type} (f : α → β) (l : List α) (acc : List β) :
    l.foldl (fun acc x => acc ++ [f x]) acc = acc ++ l.map f := by
  induction l generalizing acc with
  | nil => simp
  | cons a l ih => simp [ih]

theorem push_sales_orders_eq_map (added_by_id : Option Int)
    (post : List SoPayload → Except String (Int × String)) (df : List SoRow) :
    push_sales_orders added_by_id post df
      = (soKeys df).map (fun k => pushOneSO added_by_id post k (soGrp df k)) := by
  simpa using foldl_append_eq_map
    (fun k => pushOneSO added_by_id post k (soGrp df k)) (soKeys df) []

theorem push_purchase_orders_eq_map (products : List String)
    (sups : List SupplierRow) (bomT : String → List BomComponent)
    (added_by_id : Option Int)
    (post : List PoPayload → Except String (Int × String)) (df : List PoRow) :
    push_purchase_orders products sups bomT added_by_id post df
      = (poKeys df).map
          (fun k => pushOnePO products sups bomT added_by_id post k (poGrp df k)) := by
  simpa using foldl_append_eq_map
    (fun k => pushOnePO products sups bomT added_by_id post k (poGrp df k)) (poKeys df) []

theorem pushOneSO_orderRef (added_by_id : Option Int)
    (post : List SoPayload → Except String (Int × String))
    (ref : String) (grp : List SoRow) :
    (pushOneSO added_by_id post ref grp).orderRef = ref := by
  unfold pushOneSO
  cases h : post (build_sales_payload added_by_id ref grp) with
  | error e => rfl
  | ok st => rcases st with ⟨s, t⟩; rfl

theorem pushOnePO_orderRef (products : List String) (sups : List SupplierRow)
    (bomT : String → List BomComponent) (added_by_id : Option Int)
    (post : List PoPayload → Except String (Int × String))
    (ref : String) (grp : List PoRow) :
    (pushOnePO products sups bomT added_by_id post ref grp).orderRef = ref := by
  unfold pushOnePO
  cases hb : build_po_payload products sups bomT added_by_id ref grp with
  | error e => rfl
  | ok p =>
    cases hp : post p with
    | error e => simp only [hp]
    | ok st => rcases st with ⟨s, t⟩; simp only [hp]

theorem map_orderRef_of_refs {f : String → PushResult}
    (h : ∀ k, (f k).orderRef = k) :
    ∀ keys : List String, (keys.map f).map PushResult.orderRef = keys := by
  intro keys
  induction keys with
  | nil => rfl
  | cons k ks ih => simp [h, ih]

theorem insertKey_perm (s : String) (l : List String) :
    (insertKey s l).Perm (s :: l) := by
  induction l with
  | nil => exact List.Perm.refl _
  | cons t ts ih =>
    unfold insertKey
    by_cases h : strLt s t
    · simp [h]
    · simp only [h, if_false]
      exact (ih.cons t).trans (List.Perm.swap s t ts)

theorem sortKeys_perm (l : List String) : (sortKeys l).Perm l := by
  induction l with
  | nil => exact List.Perm.refl _
  | cons a l ih => exact (insertKey_perm a (sortKeys l)).trans (ih.cons a)

theorem groupKeys_nodup (l : List String) : (groupKeys l).Nodup :=
  ((sortKeys_perm l.dedup).nodup_iff).mpr (List.nodup_dedup l)

/-! ## Claims -/

/-- Claim C1: both push loops return exactly one result per grouping key
(the result list is the image of the distinct, duplicate-free key list, so
every group is processed); an exception raised while building or POSTing one
group is caught and recorded as a failed result for that group's entry only,
each entry depending only on its own group's rows, and the loops are total —
no exception escapes. -/
theorem push_per_group_isolation (added_by_id : Option Int)
    (post : List SoPayload → Except String (Int × String)) (df : List SoRow)
    (products : List String) (sups : List SupplierRow)
    (bomT : String → List BomComponent)
    (postP : List PoPayload → Except String (Int × String)) (dfp : List PoRow) :
    push_sales_orders added_by_id post df
        = (soKeys df).map (fun k => pushOneSO added_by_id post k (soGrp df k))
    ∧ (push_sales_orders added_by_id post df).map PushResult.orderRef = soKeys df
    ∧ (soKeys df).Nodup
    ∧ push_purchase_orders products sups bomT added_by_id postP dfp
        = (poKeys dfp).map
            (fun k => pushOnePO products sups bomT added_by_id postP k (poGrp dfp k))
    ∧ (push_purchase_orders products sups bomT added_by_id postP dfp).map
        PushResult.orderRef = poKeys dfp
    ∧ (poKeys dfp).Nodup
    ∧ (∀ (k : String) (e : String),
        post (build_sales_payload added_by_id k (soGrp df k)) = Except.error e →
        pushOneSO added_by_id post k (soGrp df k) = ⟨k, false, none, some e⟩)
    ∧ (∀ (k : String) (e : String),
        build_po_payload products sups bomT added_by_id k (poGrp dfp k)
          = Except.error e →
        pushOnePO products sups bomT added_by_id postP k (poGrp dfp k)
          = ⟨k, false, none, some e⟩) := by
  refine ⟨push_sales_orders_eq_map added_by_id post df, ?_, groupKeys_nodup _,
    push_purchase_orders_eq_map products sups bomT added_by_id postP dfp, ?_,
    groupKeys_nodup _, ?_, ?_⟩
  · rw [push_sales_orders_eq_map]
    exact map_orderRef_of_refs
      (fun k => pushOneSO_orderRef added_by_id post k (soGrp df k)) _
  · rw [push_purchase_orders_eq_map]
    exact map_orderRef_of_refs
      (fun k => pushOnePO_orderRef products sups bomT added_by_id postP k (poGrp dfp k)) _
  · intro k e h
    unfold pushOneSO
    rw [h]
  · intro k e h
    unfold pushOnePO
    rw [h]

/-- Witness for C1: a Sales-Order POST failure is caught and recorded, and a
Purchase-Order group whose build raises on an unknown code is recorded as a
failed result with the exception message. -/
theorem push_per_group_isolation_witness :
    push_sales_orders (some 1) (fun _ => Except.error "boom")
        [⟨"R", "Avondale", none, "", "", "", "", "", "", "", "", 1, 2⟩]
      = [⟨"R", false, none, some "boom"⟩]
    ∧ pushOnePO [] [] (fun _ => []) (some 1) (fun _ => Except.ok (200, "ok")) "K"
        (poGrp [⟨"K", "Avondale", "", "Z", "", 1, 1, "D"⟩] "K")
      = ⟨"K", false, none, some "Invalid Override Code Z — not found in Products.csv"⟩ := by
  obtain ⟨h1, _, _, _, _, _, h7, h8⟩ :=
    push_per_group_isolation (some 1) (fun _ => Except.error "boom")
      [⟨"R", "Avondale", none, "", "", "", "", "", "", "", "", 1, 2⟩]
      [] [] (fun _ => []) (fun _ => Except.ok (200, "ok"))
      [⟨"K", "Avondale", "", "Z", "", 1, 1, "D"⟩]
  constructor
  · rw [h1]
    have hso := h7 "R" "boom" rfl
    rw [show soKeys [⟨"R", "Avondale", none, "", "", "", "", "", "", "", "", 1, 2⟩]
          = ["R"] from rfl]
    simp only [List.map_cons, List.map_nil, hso]
  · exact h8 "K" "Invalid Override Code Z — not found in Products.csv" rfl

/-- Claim C2: the assembled Sales-Order payload carries the integer
`resolve_member_id` of the group's first row, which returns the resolved
member id when it is non-null and non-zero and otherwise the configured
default member id of the group's branch — so the `memberId` field is never
null, even when customer resolution returned a null member id. -/
theorem sales_memberId_fallback (added_by_id : Option Int) (ref : String)
    (r : SoRow) (rest : List SoRow) :
    (∀ p ∈ build_sales_payload added_by_id ref (r :: rest),
        p.memberId = resolve_member_id r.memberId r.branch)
    ∧ (build_sales_payload added_by_id ref (r :: rest)).length = 1
    ∧ (∀ (m : Int) (b : String), m ≠ 0 → resolve_member_id (some m) b = m)
    ∧ (∀ b : String, resolve_member_id none b =
        if b = "Hamilton" then branch_Hamilton_default_member
        else branch_Avondale_default_member)
    ∧ (∀ b : String, resolve_member_id (some 0) b =
        if b = "Hamilton" then branch_Hamilton_default_member
        else branch_Avondale_default_member) := by
  refine ⟨?_, rfl, ?_, fun b => rfl, fun b => ?_⟩
  · intro p hp
    simp only [build_sales_payload, List.mem_singleton] at hp
    subst hp
    rfl
  · intro m b hm
    simp [resolve_member_id, hm]
  · simp [resolve_member_id]

/-- Witness for C2: with a fully failed customer resolution (`memberId`
null) on an Avondale group, the payload's member id is the Avondale default;
a non-zero resolved id is kept. -/
theorem sales_memberId_fallback_witness :
    (∀ p ∈ build_sales_payload (some 9) "R"
        [⟨"R", "Avondale", none, "", "", "", "", "", "", "", "", 1, 2⟩],
      p.memberId = resolve_member_id none "Avondale")
    ∧ resolve_member_id (some 5) "X" = 5 := by
  obtain ⟨h1, _, h3, _, _⟩ :=
    sales_memberId_fallback (some 9) "R"
      ⟨"R", "Avondale", none, "", "", "", "", "", "", "", "", 1, 2⟩ []
  exact ⟨h1, h3 5 "X" (by decide)⟩

/-- Claim C9 (counterexample): the backend answers with the 2xx status 201,
yet the recorded push result marks the group as failed — success is recorded
only for status 200, not for every 2xx status. -/
theorem push_status_2xx_counterexample :
    push_sales_orders (some 1) (fun _ => Except.ok (201, "Created"))
        [⟨"R", "Avondale", none, "", "", "", "", "", "", "", "", 1, 2⟩]
      = [⟨"R", false, some "Created", none⟩]
    ∧ (200 : Int) ≤ 201 ∧ (201 : Int) < 300 := by
  refine ⟨?_, by decide, by decide⟩
  decide

/-- Claim C9 (amended): for every group that reaches the POST step, the
recorded result marks the group as succeeded exactly when the backend
responded with status 200 — any other status, including other 2xx codes —
is recorded as failed, and the raw response body is preserved verbatim. -/
theorem push_status_amended (added_by_id : Option Int)
    (post : List SoPayload → Except String (Int × String)) (df : List SoRow)
    (k : String) (s : Int) (t : String)
    (h : post (build_sales_payload added_by_id k (soGrp df k)) = Except.ok (s, t)) :
    ((pushOneSO added_by_id post k (soGrp df k)).success = true ↔ s = 200)
    ∧ (pushOneSO added_by_id post k (soGrp df k)).response = some t
    ∧ ∀ (products : List String) (sups : List SupplierRow)
        (bomT : String → List BomComponent)
        (postP : List PoPayload → Except String (Int × String))
        (grp : List PoRow) (payload : List PoPayload) (s2 : Int) (t2 : String),
        build_po_payload products sups bomT added_by_id k grp = Except.ok payload →
        postP payload = Except.ok (s2, t2) →
        ((pushOnePO products sups bomT added_by_id postP k grp).success = true ↔ s2 = 200)
        ∧ (pushOnePO products sups bomT added_by_id postP k grp).response = some t2 := by
  refine ⟨?_, ?_, ?_⟩
  · unfold pushOneSO
    rw [h]
    simp
  · unfold pushOneSO
    rw [h]
  · intro products sups bomT postP grp payload s2 t2 hb hp
    unfold pushOnePO
    simp only [hb]
    simp only [hp]
    simp

/-- Witness for C9 (amended): a 200 response is recorded as success with its
body, a 404 response as failure with its body. -/
theorem push_status_amended_witness :
    ((pushOneSO (some 1) (fun _ => Except.ok (200, "yes")) "R"
        (soGrp [] "R")).success = true ↔ (200 : Int) = 200)
    ∧ ((pushOneSO (some 1) (fun _ => Except.ok (404, "no")) "R"
        (soGrp [] "R")).success = true ↔ (404 : Int) = 200) := by
  exact ⟨(push_status_amended (some 1) (fun _ => Except.ok (200, "yes")) [] "R"
      200 "yes" rfl).1,
    (push_status_amended (some 1) (fun _ => Except.ok (404, "no")) [] "R"
      404 "no" rfl).1⟩

/-- The single-position view of one substitution step. -/
def subValStep (subs : List (String × String)) (swap : String → Bool)
    (v : Option String) (orig : String) : Option String :=
  match lookupSub subs orig with
  | some sub => if swap orig then v.map (fun c => if c = orig then sub else c) else v
  | none => v

theorem subsFold_length (subs : List (String × String)) (swap : String → Bool) :
    ∀ (hits cur : List String),
      (hits.foldl (fun cur orig =>
        match lookupSub subs orig with
        | some sub => if swap orig then subStep cur orig sub else cur
        | none => cur) cur).length = cur.length := by
  intro hits
  induction hits with
  | nil => intro cur; rfl
  | cons orig hs ih =>
    intro cur
    simp only [List.foldl_cons]
    rw [ih]
    cases h : lookupSub subs orig with
    | none => rfl
    | some sub =>
      by_cases hw : swap orig
      · simp [hw, subStep]
      · simp [hw]

theorem subsFold_get? (subs : List (String × String)) (swap : String → Bool)
    (i : Nat) :
    ∀ (hits cur : List String),
      (hits.foldl (fun cur orig =>
        match lookupSub subs orig with
        | some sub => if swap orig then subStep cur orig sub else cur
        | none => cur) cur).get? i
      = hits.foldl (subValStep subs swap) (cur.get? i) := by
  intro hits
  induction hits with
  | nil => intro cur; rfl
  | cons orig hs ih =>
    intro cur
    simp only [List.foldl_cons]
    rw [ih]
    congr 1
    unfold subValStep
    cases h : lookupSub subs orig with
    | none => rfl
    | some sub =>
      by_cases hw : swap orig
      · simp [hw, subStep, List.get?_map]
      · simp [hw]

theorem subValFold_stay (subs : List (String × String)) (swap : String → Bool)
    (B : String) :
    ∀ hits : List String, (∀ orig ∈ hits, swap orig = true → orig ≠ B) →
      hits.foldl (subValStep subs swap) (some B) = some B := by
  intro hits
  induction hits with
  | nil => intro _; rfl
  | cons orig hs ih =>
    intro h
    have hB : swap orig = true → orig ≠ B := h orig (List.mem_cons_self orig hs)
    have hstep : subValStep subs swap (some B) orig = some B := by
      unfold subValStep
      cases hl : lookupSub subs orig with
      | none => rfl
      | some sub =>
        by_cases hw : swap orig
        · have hne : B ≠ orig := fun hBo => (hB hw) hBo.symm
          simp [hw, hne]
        · simp [hw]
    simp only [List.foldl_cons, hstep]
    exact ih (fun o ho => h o (List.mem_cons_of_mem orig ho))

theorem subValFold_reach (subs : List (String × String)) (swap : String → Bool)
    (A B : String) (hrule : lookupSub subs A = some B) (hswap : swap A = true) :
    ∀ hits : List String, A ∈ hits →
      (∀ orig ∈ hits, swap orig = true → orig ≠ B) →
      hits.foldl (subValStep subs swap) (some A) = some B := by
  intro hits
  induction hits with
  | nil => intro hmem; exact absurd hmem (List.not_mem_nil A)
  | cons orig hs ih =>
    intro hmem hno
    by_cases ho : orig = A
    · have hstep : subValStep subs swap (some A) orig = some B := by
        unfold subValStep
        rw [ho, hrule]
        simp [hswap]
      simp only [List.foldl_cons, hstep]
      exact subValFold_stay subs swap B hs
        (fun o hos => hno o (List.mem_cons_of_mem orig hos))
    · have hstep : subValStep subs swap (some A) orig = some A := by
        unfold subValStep
        cases hl : lookupSub subs orig with
        | none => rfl
        | some sub =>
          by_cases hw : swap orig
          · have hne : A ≠ orig := fun hAo => ho hAo.symm
            simp [hw, hne]
          · simp [hw]
      have hmem' : A ∈ hs := by
        rcases List.mem_cons.mp hmem with h | h
        · exact absurd h.symm ho
        · exact h
      simp only [List.foldl_cons, hstep]
      exact ih hmem' (fun o hos => hno o (List.mem_cons_of_mem orig hos))

/-- Claim C7 (counterexample): with the substitution table `A→B, B→C` and
both swaps accepted, the first line — whose original code is `A` — ends the
pass with code `C`, not `B`: the rewrite step matches the line's current
code, so the line swapped `A→B` is rewritten again when the sibling line's
`B→C` swap is applied. -/
theorem substitution_chain_counterexample :
    applySubs ["A", "B"] [("A", "B"), ("B", "C")] (fun _ => true) = ["C", "C"] := by
  decide

/-- Claim C7 (amended): lines are looked up against the table only under
their original pre-swap codes (the hit list is fixed before any swap), so a
swapped line never triggers a new table lookup; and a line whose code `A` is
accepted for `A→B` ends the pass with code `B` provided no accepted hit of
the batch has original code `B` — only in that sibling case can the line be
rewritten again. -/
theorem substitution_once_amended (pm : List String)
    (subs : List (String × String)) (swap : String → Bool) (A B : String)
    (i : Nat) (hi : i < pm.length) (hA : pm.get ⟨i, hi⟩ = A)
    (hrule : lookupSub subs A = some B) (hswap : swap A = true)
    (hnoB : ∀ orig ∈ subsHits pm subs, swap orig = true → orig ≠ B) :
    (applySubs pm subs swap).get? i = some B
    ∧ (applySubs pm subs swap).length = pm.length := by
  constructor
  · unfold applySubs
    rw [subsFold_get?]
    have hget : pm.get? i = some A := by
      rw [List.get?_eq_get hi, hA]
    rw [hget]
    have hmem : A ∈ subsHits pm subs := by
      unfold subsHits
      rw [List.mem_filter]
      refine ⟨hA ▸ List.get_mem pm i hi, ?_⟩
      unfold lookupSub at hrule
      obtain ⟨q, hfind, hq2⟩ := Option.map_eq_some'.mp hrule
      have hqm : q ∈ subs := List.mem_of_find?_eq_some hfind
      have hqe := List.find?_some hfind
      simp only [beq_iff_eq] at hqe
      have hmm : A ∈ subs.map Prod.fst :=
        hqe ▸ List.mem_map_of_mem Prod.fst hqm
      exact List.elem_iff.mpr hmm
    exact subValFold_reach subs swap A B hrule hswap (subsHits pm subs) hmem hnoB
  · unfold applySubs
    rw [subsFold_length]

/-- Witness for C7 (amended): a single line `A` with table `A→B, B→C` and
accepted swap ends the pass as `B`, never chained to `C`. -/
theorem substitution_once_amended_witness :
    (applySubs ["A"] [("A", "B"), ("B", "C")] (fun s => s == "A")).get? 0 = some "B" := by
  exact (substitution_once_amended ["A"] [("A", "B"), ("B", "C")]
    (fun s => s == "A") "A" "B" 0 (by decide) rfl rfl rfl (by decide)).1

theorem pyIsSpace_toNat (c : Char) (h : pyIsSpace c = true) : c.toNat ≤ 32 := by
  simp only [pyIsSpace, Bool.or_eq_true, beq_iff_eq] at h
  rcases h with ((((rfl | rfl) | rfl) | rfl) | rfl) | rfl <;> decide

theorem appAllowed_toNat (c : Char) (h : appAllowed c = true) :
    45 ≤ c.toNat ∧ c.toNat ≤ 92 := by
  simp only [appAllowed, Bool.or_eq_true, Bool.and_eq_true, beq_iff_eq,
    decide_eq_true_eq] at h
  rcases h with (((⟨h1, h2⟩ | ⟨h1, h2⟩) | rfl) | rfl) | rfl
  · omega
  · omega
  · decide
  · decide
  · decide

theorem potAllowed_toNat (c : Char) (h : potAllowed c = true) :
    45 ≤ c.toNat ∧ c.toNat ≤ 92 := by
  simp only [potAllowed, Bool.or_eq_true, Bool.and_eq_true, beq_iff_eq,
    decide_eq_true_eq] at h
  rcases h with ((⟨h1, h2⟩ | ⟨h1, h2⟩) | rfl) | rfl
  · omega
  · omega
  · decide
  · decide

theorem allowed_pipeline_fixed_char (c : Char) (h45 : 45 ≤ c.toNat)
    (h92 : c.toNat ≤ 92) :
    pyIsSpace c = false ∧ pyUpperChar c = c ∧ c ≠ '–' ∧ c ≠ '—' := by
  refine ⟨?_, ?_, ?_, ?_⟩
  · cases hs : pyIsSpace c
    · rfl
    · have := pyIsSpace_toNat c hs
      omega
  · unfold pyUpperChar
    rw [if_neg]
    omega
  · intro hc
    subst hc
    exact absurd h92 (by decide)
  · intro hc
    subst hc
    exact absurd h92 (by decide)

theorem dropWhile_no_space (l : List Char) (h : ∀ c ∈ l, pyIsSpace c = false) :
    l.dropWhile pyIsSpace = l := by
  cases l with
  | nil => rfl
  | cons c cs => simp [List.dropWhile, h c (List.mem_cons_self c cs)]

theorem pyStripList_fixed (l : List Char) (h : ∀ c ∈ l, pyIsSpace c = false) :
    pyStripList l = l := by
  unfold pyStripList
  rw [dropWhile_no_space l h,
    dropWhile_no_space l.reverse (fun c hc => h c (List.mem_reverse.mp hc)),
    List.reverse_reverse]

theorem map_fixed {f : Char → Char} :
    ∀ l : List Char, (∀ c ∈ l, f c = c) → l.map f = l := by
  intro l
  induction l with
  | nil => intro _; rfl
  | cons c cs ih =>
    intro h
    simp only [List.map_cons, h c (List.mem_cons_self c cs),
      ih (fun d hd => h d (List.mem_cons_of_mem c hd))]

theorem replaceFuel_single (p r : Char) :
    ∀ (n : Nat) (l : List Char), l.length ≤ n →
      replaceFuel [p] [r] n l = l.map (fun c => if c = p then r else c) := by
  intro n
  induction n with
  | zero =>
    intro l hl
    have hnil : l = [] := List.eq_nil_of_length_eq_zero (Nat.le_zero.mp hl)
    subst hnil
    rfl
  | succ n ih =>
    intro l hl
    cases l with
    | nil => rfl
    | cons c cs =>
      have hcs : cs.length ≤ n := by
        simp only [List.length_cons] at hl
        omega
      by_cases hc : c = p
      · have hpe : listPrefixEq [p] (c :: cs) = true := by
          simp [listPrefixEq, hc]
        have hcond : ([p] : List Char) ≠ [] ∧ listPrefixEq [p] (c :: cs) = true :=
          ⟨by simp, hpe⟩
        simp only [replaceFuel]
        rw [if_pos hcond]
        have hdrop : List.drop ([p] : List Char).length (c :: cs) = cs := rfl
        rw [hdrop, ih cs hcs]
        simp [hc]
      · have hpe : listPrefixEq [p] (c :: cs) = false := by
          have hne : p ≠ c := fun h => hc h.symm
          simp [listPrefixEq, hne]
        simp only [replaceFuel]
        rw [if_neg (by simp [hpe])]
        simp only [List.map_cons, if_neg hc]
        rw [ih cs hcs]

theorem replaceAll_single_fixed (p r : Char) (l : List Char)
    (h : ∀ c ∈ l, c ≠ p) : replaceAll [p] [r] l = l := by
  unfold replaceAll
  rw [replaceFuel_single p r l.length l (Nat.le_refl _)]
  exact map_fixed l (fun c hc => if_neg (h c hc))

theorem clean_pipeline_fixed (P : Char → Bool)
    (hP : ∀ c, P c = true → 45 ≤ c.toNat ∧ c.toNat ≤ 92) (m : List Char)
    (hm : ∀ c ∈ m, P c = true) :
    (replaceAll ['—'] ['-'] (replaceAll ['–'] ['-']
      (pyUpperList (pyStripList m)))).filter P = m := by
  have hfix : ∀ c ∈ m, pyIsSpace c = false ∧ pyUpperChar c = c ∧ c ≠ '–' ∧ c ≠ '—' :=
    fun c hc => allowed_pipeline_fixed_char c (hP c (hm c hc)).1 (hP c (hm c hc)).2
  rw [pyStripList_fixed m (fun c hc => (hfix c hc).1)]
  have hup : pyUpperList m = m := map_fixed m (fun c hc => (hfix c hc).2.1)
  rw [hup]
  rw [replaceAll_single_fixed _ _ m (fun c hc => (hfix c hc).2.2.1)]
  rw [replaceAll_single_fixed _ _ m (fun c hc => (hfix c hc).2.2.2)]
  exact List.filter_eq_self.mpr hm

/-- Claim C6 (counterexample): app.py's `clean_code` regex, written
`[^A-Z0-9/\\-]` inside a raw string, keeps the literal backslash, so the
output of `clean_code` can contain a character outside the claimed
allow-list of uppercase alphanumerics, slash and hyphen. -/
theorem clean_code_allowlist_counterexample :
    clean_code (Cell.str "\\") = "\\"
    ∧ '\\' ∈ (clean_code (Cell.str "\\")).data
    ∧ specCodeAllowed '\\' = false := by
  refine ⟨by decide, by decide, by decide⟩

/-- Claim C6 (amended): both `clean_code` variants are idempotent and map
NaN input to the empty string; the potest.py variant's output stays inside
the claimed allow-list of uppercase alphanumerics, slash, hyphen (it coincides pointwise with
the claimed one), while the app.py variant's output stays inside that
allow-list extended with the backslash, which its raw-string regex also
keeps. -/
theorem clean_code_idempotent_amended :
    (∀ x : Cell, clean_code (Cell.str (clean_code x)) = clean_code x)
    ∧ (∀ x : Cell, potest_clean_code (Cell.str (potest_clean_code x)) = potest_clean_code x)
    ∧ (∀ x : Cell, ∀ c ∈ (clean_code x).data, appAllowed c = true)
    ∧ (∀ x : Cell, ∀ c ∈ (potest_clean_code x).data, potAllowed c = true)
    ∧ (∀ c : Char, potAllowed c = specCodeAllowed c)
    ∧ clean_code Cell.na = "" ∧ potest_clean_code Cell.na = "" := by
  have hmemApp : ∀ x : Cell, ∀ c ∈ (clean_code x).data, appAllowed c = true := by
    intro x c hc
    cases x with
    | na => exact absurd hc (by simp [clean_code])
    | str s => exact (List.mem_filter.mp hc).2
  have hmemPot : ∀ x : Cell, ∀ c ∈ (potest_clean_code x).data, potAllowed c = true := by
    intro x c hc
    cases x with
    | na => exact absurd hc (by simp [potest_clean_code])
    | str s => exact (List.mem_filter.mp hc).2
  refine ⟨?_, ?_, hmemApp, hmemPot, fun c => rfl, rfl, rfl⟩
  · intro x
    have hfix := clean_pipeline_fixed appAllowed appAllowed_toNat
      (clean_code x).data (hmemApp x)
    show String.mk _ = clean_code x
    rw [hfix]
  · intro x
    have hfix := clean_pipeline_fixed potAllowed potAllowed_toNat
      (potest_clean_code x).data (hmemPot x)
    show String.mk _ = potest_clean_code x
    rw [hfix]

/-- Witness for C6 (amended): idempotence at a concrete messy input, and a
concrete allow-list membership. -/
theorem clean_code_idempotent_amended_witness :
    clean_code (Cell.str (clean_code (Cell.str " a\\b–c! "))) = clean_code (Cell.str " a\\b–c! ")
    ∧ potest_clean_code (Cell.str (potest_clean_code (Cell.str " a\\b–c! ")))
        = potest_clean_code (Cell.str " a\\b–c! ")
    ∧ appAllowed 'A' = true := by
  refine ⟨clean_code_idempotent_amended.1 (Cell.str " a\\b–c! "),
    clean_code_idempotent_amended.2.1 (Cell.str " a\\b–c! "),
    clean_code_idempotent_amended.2.2.1 (Cell.str "AB") 'A' (by decide)⟩

/-- Claim C3: for every order line, a resolved code with no BOM yields
exactly one PO line item `{code, qty ordered, the line's own unit cost}`; a
code with BOM components yields one line per component with
`qty = componentQuantityPerParent × quantityOrdered` and the component's own
unit cost, not scaled; the assembled payload's `lineItems` is the
concatenation of the per-row explosions; and potest.py's
`expand_product_with_bom` satisfies the same quantity law. -/
theorem bom_explosion_lines (products : List String)
    (bomT : String → List BomComponent) (r : PoRow)
    (hmem : poRowCode r ∈ products) :
    (bomT (poRowCode r) = [] →
      poRowLines products bomT r
        = Except.ok [LineItem.mk (poRowCode r) r.itemQty r.itemCost])
    ∧ (∀ comps, bomT (poRowCode r) = comps → comps ≠ [] →
        poRowLines products bomT r = Except.ok (comps.map (fun comp =>
          LineItem.mk comp.code (comp.quantity * r.itemQty) comp.unitPrice)))
    ∧ (∀ (sups : List SupplierRow) (added_by_id : Option Int) (ref : String)
        (grp : List PoRow) (sup : SupplierMatch) (liness : List (List LineItem)),
        get_supplier_details sups (some (grp.headI).supplier) = Except.ok sup →
        mapExcept (poRowLines products bomT) grp = Except.ok liness →
        ∃ p, build_po_payload products sups bomT added_by_id ref grp = Except.ok [p]
          ∧ p.lineItems = liness.flatten)
    ∧ (∀ (bomE : String → List BomEntry) (code : String) (q : ℚ),
        (bomE code = [] →
          expand_product_with_bom bomE code q = [ExpandedItem.mk code q])
        ∧ (∀ bs, bomE code = bs → bs ≠ [] →
            expand_product_with_bom bomE code q
              = bs.map (fun c => ExpandedItem.mk c.componentCode (q * c.qty)))) := by
  refine ⟨?_, ?_, ?_, ?_⟩
  · intro hb
    simp only [poRowLines, hb]
    rw [if_pos hmem]
  · intro comps hc hne
    cases comps with
    | nil => exact absurd rfl hne
    | cons a as =>
      simp only [poRowLines, hc]
      rw [if_pos hmem]
  · intro sups added_by_id ref grp sup liness hsup hmap
    simp only [build_po_payload, hsup, hmap]
    exact ⟨_, rfl, rfl⟩
  · intro bomE code q
    constructor
    · intro hb
      simp only [expand_product_with_bom, hb]
    · intro bs hb hne
      cases bs with
      | nil => exact absurd rfl hne
      | cons a as => simp only [expand_product_with_bom, hb]

/-- Witness for C3: the end-to-end scenario — parent `KIT-1` with BOM
`[(P1, qty 2, cost 4), (P2, qty 1, cost 6)]` ordered at quantity 3 explodes
to exactly `[(P1, 6, 4), (P2, 3, 6)]`, and a BOM-free code yields itself. -/
theorem bom_explosion_lines_witness :
    poRowLines ["KIT-1", "AB-12"]
        (fun c => if c = "KIT-1" then
          [BomComponent.mk "P1" 2 4, BomComponent.mk "P2" 1 6] else [])
        ⟨"K", "Avondale", "S", "KIT-1", "", 3, 10, "D"⟩
      = Except.ok [LineItem.mk "P1" 6 4, LineItem.mk "P2" 3 6]
    ∧ poRowLines ["KIT-1", "AB-12"]
        (fun c => if c = "KIT-1" then
          [BomComponent.mk "P1" 2 4, BomComponent.mk "P2" 1 6] else [])
        ⟨"K", "Avondale", "S", "AB-12", "", 3, 10, "D"⟩
      = Except.ok [LineItem.mk "AB-12" 3 10] := by
  constructor
  · have h := (bom_explosion_lines ["KIT-1", "AB-12"]
      (fun c => if c = "KIT-1" then
        [BomComponent.mk "P1" 2 4, BomComponent.mk "P2" 1 6] else [])
      ⟨"K", "Avondale", "S", "KIT-1", "", 3, 10, "D"⟩ (by decide)).2.1
      [BomComponent.mk "P1" 2 4, BomComponent.mk "P2" 1 6] rfl (by simp)
    rw [h]
    norm_num
  · have h := (bom_explosion_lines ["KIT-1", "AB-12"]
      (fun c => if c = "KIT-1" then
        [BomComponent.mk "P1" 2 4, BomComponent.mk "P2" 1 6] else [])
      ⟨"K", "Avondale", "S", "AB-12", "", 3, 10, "D"⟩ (by decide)).1 rfl
    exact h

theorem seqRatio_eval {a b : String} {M T : Nat}
    (hM : matchingTotal a.data b.data = M) (hT : a.length + b.length = T)
    (h0 : T ≠ 0) : seqRatio a b = (2 * M : ℚ) / (T : ℚ) := by
  simp only [seqRatio, hT, hM]
  rw [if_neg h0]

theorem supplierFold_stay_aux (cleaned : String) :
    ∀ (sups : List SupplierRow) (b0 : Option Int) (s0 : ℚ) (n0 : String),
      (∀ row ∈ sups, seqRatio cleaned row.company_clean ≤ s0) →
      sups.foldl (fun best row =>
        if best.2.1 < seqRatio cleaned row.company_clean
        then (some row.id, seqRatio cleaned row.company_clean, row.company)
        else best) (b0, s0, n0) = (b0, s0, n0) := by
  intro sups
  induction sups with
  | nil => intro b0 s0 n0 _; rfl
  | cons r rs ih =>
    intro b0 s0 n0 h
    have hr : seqRatio cleaned r.company_clean ≤ s0 := h r (List.mem_cons_self r rs)
    simp only [List.foldl_cons]
    rw [if_neg (not_lt.mpr hr)]
    exact ih b0 s0 n0 (fun row hrow => h row (List.mem_cons_of_mem r hrow))

theorem supplierFold_first_aux (cleaned : String) :
    ∀ (sups : List SupplierRow) (i : Nat) (hi : i < sups.length)
      (init : Option Int × ℚ × String),
      init.2.1 < seqRatio cleaned (sups.get ⟨i, hi⟩).company_clean →
      (∀ j (hj : j < sups.length),
        seqRatio cleaned (sups.get ⟨j, hj⟩).company_clean
          ≤ seqRatio cleaned (sups.get ⟨i, hi⟩).company_clean) →
      (∀ j (hj : j < i),
        seqRatio cleaned (sups.get ⟨j, Nat.lt_trans hj hi⟩).company_clean
          < seqRatio cleaned (sups.get ⟨i, hi⟩).company_clean) →
      sups.foldl (fun best row =>
        if best.2.1 < seqRatio cleaned row.company_clean
        then (some row.id, seqRatio cleaned row.company_clean, row.company)
        else best) init
        = (some (sups.get ⟨i, hi⟩).id,
           seqRatio cleaned (sups.get ⟨i, hi⟩).company_clean,
           (sups.get ⟨i, hi⟩).company) := by
  intro sups
  induction sups with
  | nil => intro i hi; exact absurd hi (Nat.not_lt_zero i)
  | cons r rs ih =>
    intro i hi init hinit hmax hfirst
    cases i with
    | zero =>
      have hget0 : (r :: rs).get ⟨0, hi⟩ = r := rfl
      rw [hget0] at hinit hmax ⊢
      simp only [List.foldl_cons]
      rw [if_pos hinit]
      apply supplierFold_stay_aux
      intro row hrow
      obtain ⟨⟨j, hj⟩, hget⟩ := List.mem_iff_get.mp hrow
      have hj1 := hmax (j + 1) (Nat.succ_lt_succ hj)
      have hgetj : (r :: rs).get ⟨j + 1, Nat.succ_lt_succ hj⟩ = rs.get ⟨j, hj⟩ := rfl
      rw [hgetj, hget] at hj1
      exact hj1
    | succ k =>
      have hik : k < rs.length := Nat.lt_of_succ_lt_succ hi
      have hgets : (r :: rs).get ⟨k + 1, hi⟩ = rs.get ⟨k, hik⟩ := rfl
      rw [hgets] at hinit hmax hfirst ⊢
      have h0 : seqRatio cleaned r.company_clean
          < seqRatio cleaned (rs.get ⟨k, hik⟩).company_clean := by
        have hh := hfirst 0 (Nat.succ_pos k)
        have hg0 : (r :: rs).get ⟨0, Nat.lt_trans (Nat.succ_pos k) hi⟩ = r := rfl
        rw [hg0] at hh
        exact hh
      simp only [List.foldl_cons]
      have hmax' : ∀ j (hj : j < rs.length),
          seqRatio cleaned (rs.get ⟨j, hj⟩).company_clean
            ≤ seqRatio cleaned (rs.get ⟨k, hik⟩).company_clean :=
        fun j hj => hmax (j + 1) (Nat.succ_lt_succ hj)
      have hfirst' : ∀ j (hj : j < k),
          seqRatio cleaned (rs.get ⟨j, Nat.lt_trans hj hik⟩).company_clean
            < seqRatio cleaned (rs.get ⟨k, hik⟩).company_clean :=
        fun j hj => hfirst (j + 1) (Nat.succ_lt_succ hj)
      by_cases hc : init.2.1 < seqRatio cleaned r.company_clean
      · rw [if_pos hc]
        exact ih k hik (some r.id, seqRatio cleaned r.company_clean, r.company)
          h0 hmax' hfirst'
      · rw [if_neg hc]
        exact ih k hik init hinit hmax' hfirst'

/-- Claim C10: `get_supplier_details` is a pure function — the same name and
table always give the same result — and its scoring loop replaces the best
candidate only on a strictly greater score, so among records tying at the
maximum similarity the earliest record in table iteration order is selected:
when row `i` attains the maximum, every earlier row scores strictly below it,
and the score is positive, the loop returns row `i`, and when additionally
its id is non-zero and the score reaches the 0.40 threshold,
`get_supplier_details` accepts row `i`. -/
theorem supplier_match_first_max (sups : List SupplierRow) (name : String)
    (i : Nat) (hi : i < sups.length)
    (hpos : 0 < seqRatio (clean_supplier_name name) (sups.get ⟨i, hi⟩).company_clean)
    (hmax : ∀ j (hj : j < sups.length),
      seqRatio (clean_supplier_name name) (sups.get ⟨j, hj⟩).company_clean
        ≤ seqRatio (clean_supplier_name name) (sups.get ⟨i, hi⟩).company_clean)
    (hfirst : ∀ j (hj : j < i),
      seqRatio (clean_supplier_name name) (sups.get ⟨j, Nat.lt_trans hj hi⟩).company_clean
        < seqRatio (clean_supplier_name name) (sups.get ⟨i, hi⟩).company_clean) :
    supplierFold (clean_supplier_name name) sups
      = (some (sups.get ⟨i, hi⟩).id,
         seqRatio (clean_supplier_name name) (sups.get ⟨i, hi⟩).company_clean,
         (sups.get ⟨i, hi⟩).company)
    ∧ (name ≠ "" → (sups.get ⟨i, hi⟩).id ≠ 0 →
        (2 : ℚ) / 5 ≤ seqRatio (clean_supplier_name name) (sups.get ⟨i, hi⟩).company_clean →
        get_supplier_details sups (some name)
          = Except.ok ⟨some (sups.get ⟨i, hi⟩).id,
              if clean_supplier_name name = "" then "SUPP"
              else (clean_supplier_name name).take 4⟩) := by
  have hfold : supplierFold (clean_supplier_name name) sups
      = (some (sups.get ⟨i, hi⟩).id,
         seqRatio (clean_supplier_name name) (sups.get ⟨i, hi⟩).company_clean,
         (sups.get ⟨i, hi⟩).company) :=
    supplierFold_first_aux (clean_supplier_name name) sups i hi (none, 0, "")
      hpos hmax hfirst
  refine ⟨hfold, fun hne hid hth => ?_⟩
  simp only [get_supplier_details, if_neg hne, hfold]
  rw [if_pos ⟨hid, hth⟩]

/-- Witness for C10: two supplier records with identical normalized names tie
at score 1; the loop keeps the first record (id 7), never the second. -/
theorem supplier_match_first_max_witness :
    supplierFold (clean_supplier_name "AX")
        [⟨7, "AXCO", "AX"⟩, ⟨8, "AXCO2", "AX"⟩]
      = (some 7, 1, "AXCO") := by
  have hclean : clean_supplier_name "AX" = "AX" := by decide
  have hsc : seqRatio "AX" "AX" = 1 := by
    have h := seqRatio_eval (a := "AX") (b := "AX") (M := 2) (T := 4)
      (by decide) (by decide) (by decide)
    rw [h]
    norm_num
  have h := (supplier_match_first_max
    [⟨7, "AXCO", "AX"⟩, ⟨8, "AXCO2", "AX"⟩] "AX" 0 (by decide)
    (by show (0 : ℚ) < seqRatio (clean_supplier_name "AX") "AX"
        rw [hclean, hsc]
        norm_num)
    (by intro j hj
        have hj2 : j < 2 := hj
        interval_cases j
        · exact le_refl _
        · exact le_of_eq rfl)
    (by intro j hj
        exact absurd hj (Nat.not_lt_zero j))).1
  rw [h]
  show (some 7, seqRatio (clean_supplier_name "AX") "AX", "AXCO") = (some 7, 1, "AXCO")
  rw [hclean, hsc]

theorem supplierFold_score_mem (cleaned : String) :
    ∀ (sups : List SupplierRow) (init : Option Int × ℚ × String),
      (sups.foldl (fun best row =>
        if best.2.1 < seqRatio cleaned row.company_clean
        then (some row.id, seqRatio cleaned row.company_clean, row.company)
        else best) init).2.1 = init.2.1
      ∨ ∃ row ∈ sups,
          (sups.foldl (fun best row =>
            if best.2.1 < seqRatio cleaned row.company_clean
            then (some row.id, seqRatio cleaned row.company_clean, row.company)
            else best) init).2.1 = seqRatio cleaned row.company_clean := by
  intro sups
  induction sups with
  | nil => intro init; exact Or.inl rfl
  | cons r rs ih =>
    intro init
    simp only [List.foldl_cons]
    by_cases hc : init.2.1 < seqRatio cleaned r.company_clean
    · rw [if_pos hc]
      rcases ih (some r.id, seqRatio cleaned r.company_clean, r.company) with h | ⟨row, hm, he⟩
      · exact Or.inr ⟨r, List.mem_cons_self r rs, h⟩
      · exact Or.inr ⟨row, List.mem_cons_of_mem r hm, he⟩
    · rw [if_neg hc]
      rcases ih init with h | ⟨row, hm, he⟩
      · exact Or.inl h
      · exact Or.inr ⟨row, List.mem_cons_of_mem r hm, he⟩

theorem get_supplier_details_accepts (sups : List SupplierRow) (name : String)
    (bid : Int) (score : ℚ) (bname : String) (hne : name ≠ "")
    (hfold : supplierFold (clean_supplier_name name) sups = (some bid, score, bname))
    (hid : bid ≠ 0) (hth : (2 : ℚ) / 5 ≤ score) :
    get_supplier_details sups (some name)
      = Except.ok ⟨some bid,
          if clean_supplier_name name = "" then "SUPP"
          else (clean_supplier_name name).take 4⟩ := by
  simp only [get_supplier_details, if_neg hne, hfold]
  rw [if_pos ⟨hid, hth⟩]

theorem get_supplier_details_rejects (sups : List SupplierRow) (name : String)
    (hne : name ≠ "")
    (hbelow : ∀ row ∈ sups,
      seqRatio (clean_supplier_name name) row.company_clean < 2 / 5) :
    get_supplier_details sups (some name)
      = Except.error (supplierFailMsg name (supplierFold (clean_supplier_name name) sups)) := by
  have hscore : (supplierFold (clean_supplier_name name) sups).2.1 < 2 / 5 := by
    rcases supplierFold_score_mem (clean_supplier_name name) sups (none, 0, "")
      with h | ⟨row, hm, he⟩
    · have h2 : (supplierFold (clean_supplier_name name) sups).2.1 = (0 : ℚ) := h
      rw [h2]
      norm_num
    · have h2 : (supplierFold (clean_supplier_name name) sups).2.1
          = seqRatio (clean_supplier_name name) row.company_clean := he
      rw [h2]
      exact hbelow row hm
  simp only [get_supplier_details, if_neg hne]
  cases hb : (supplierFold (clean_supplier_name name) sups).1 with
  | none =>
    simp only [hb]
  | some bid =>
    simp only [hb]
    rw [if_neg (fun hcond => absurd hcond.2 (not_le.mpr hscore))]

theorem poPosted_mem_aux (products : List String) (sups : List SupplierRow)
    (bomT : String → List BomComponent) (added_by_id : Option Int)
    (df : List PoRow) :
    ∀ (keys : List String) (acc : List PoPayload) (p : PoPayload),
      p ∈ keys.foldl (fun acc ref =>
        match build_po_payload products sups bomT added_by_id ref (poGrp df ref) with
        | Except.ok payload => acc ++ payload
        | Except.error _ => acc) acc →
      p ∈ acc ∨ ∃ k ∈ keys, ∃ pl,
        build_po_payload products sups bomT added_by_id k (poGrp df k)
          = Except.ok pl ∧ p ∈ pl := by
  intro keys
  induction keys with
  | nil => intro acc p hp; exact Or.inl hp
  | cons k ks ih =>
    intro acc p hp
    simp only [List.foldl_cons] at hp
    cases hb : build_po_payload products sups bomT added_by_id k (poGrp df k) with
    | ok pl =>
      rw [hb] at hp
      rcases ih (acc ++ pl) p hp with hin | ⟨k2, hk2, pl2, hb2, hp2⟩
      · rcases List.mem_append.mp hin with h | h
        · exact Or.inl h
        · exact Or.inr ⟨k, List.mem_cons_self k ks, pl, hb, h⟩
      · exact Or.inr ⟨k2, List.mem_cons_of_mem k hk2, pl2, hb2, hp2⟩
    | error e =>
      rw [hb] at hp
      rcases ih acc p hp with hin | ⟨k2, hk2, pl2, hb2, hp2⟩
      · exact Or.inl hin
      · exact Or.inr ⟨k2, List.mem_cons_of_mem k hk2, pl2, hb2, hp2⟩

theorem build_po_reference (products : List String) (sups : List SupplierRow)
    (bomT : String → List BomComponent) (added_by_id : Option Int)
    (ref : String) (grp : List PoRow) (pl : List PoPayload)
    (h : build_po_payload products sups bomT added_by_id ref grp = Except.ok pl) :
    ∀ p ∈ pl, p.reference = ref := by
  unfold build_po_payload at h
  cases hs : get_supplier_details sups (some (grp.headI).supplier) with
  | error e =>
    simp only [hs] at h
    exact absurd h (by simp)
  | ok sup =>
    simp only [hs] at h
    cases hm : mapExcept (poRowLines products bomT) grp with
    | error e =>
      simp only [hm] at h
      exact absurd h (by simp)
    | ok liness =>
      simp only [hm, Except.ok.injEq] at h
      subst h
      intro p hp
      rw [List.mem_singleton] at hp
      subst hp
      rfl

/-- Claim C4 (counterexample): the empty supplier name — the value the PO
table actually carries when the Supplier cell is blank — has best similarity
score 0 against the supplier table, below the 0.40 threshold, yet
`get_supplier_details` does not raise: it short-circuits to a null id, a
Purchase-Order payload with `supplierId = null` is assembled, and that
payload is POSTed. -/
theorem supplier_below_threshold_counterexample :
    get_supplier_details [⟨1, "ACME LTD", "ACMELTD"⟩] (some "")
      = Except.ok ⟨none, ""⟩
    ∧ (∀ row ∈ ([⟨1, "ACME LTD", "ACMELTD"⟩] : List SupplierRow),
        seqRatio (clean_supplier_name "") row.company_clean < 2 / 5)
    ∧ build_po_payload ["AB-12"] [⟨1, "ACME LTD", "ACMELTD"⟩] (fun _ => [])
        (some 1) "P" [⟨"P", "Avondale", "", "AB-12", "", 1, 1, "D"⟩]
      = Except.ok [⟨"P", none, 3, none, some 1, some 1,
          "Hardware Direct Warehouse", "DT00:00:00Z", true, [⟨"AB-12", 1, 1⟩]⟩]
    ∧ poPosted ["AB-12"] [⟨1, "ACME LTD", "ACMELTD"⟩] (fun _ => []) (some 1)
        [⟨"P", "Avondale", "", "AB-12", "", 1, 1, "D"⟩]
      = [⟨"P", none, 3, none, some 1, some 1,
          "Hardware Direct Warehouse", "DT00:00:00Z", true, [⟨"AB-12", 1, 1⟩]⟩] := by
  refine ⟨rfl, ?_, rfl, rfl⟩
  intro row hrow
  rw [List.mem_singleton] at hrow
  subst hrow
  have hcl : clean_supplier_name "" = "" := rfl
  have hr : seqRatio "" "ACMELTD" = (2 * 0 : ℚ) / 7 :=
    seqRatio_eval (by decide) (by decide) (by decide)
  show seqRatio (clean_supplier_name "") "ACMELTD" < 2 / 5
  rw [hcl, hr]
  norm_num

/-- Claim C4 (amended): for every non-empty, non-NaN supplier name whose
similarity scores against the supplier table are all below the 0.40
threshold, `get_supplier_details` raises, `build_po_payload` propagates that
exception, the push loop records a failed result for the group, and no
POSTed payload belongs to that group; the empty or missing name instead
short-circuits to a null supplier id and its payload is assembled and
POSTed (see the counterexample). -/
theorem supplier_below_threshold_amended (products : List String)
    (sups : List SupplierRow) (bomT : String → List BomComponent)
    (added_by_id : Option Int)
    (post : List PoPayload → Except String (Int × String))
    (ref : String) (grp : List PoRow)
    (hname : (grp.headI).supplier ≠ "")
    (hbelow : ∀ row ∈ sups,
      seqRatio (clean_supplier_name (grp.headI).supplier) row.company_clean < 2 / 5) :
    (∃ e, get_supplier_details sups (some (grp.headI).supplier) = Except.error e
      ∧ build_po_payload products sups bomT added_by_id ref grp = Except.error e
      ∧ pushOnePO products sups bomT added_by_id post ref grp
          = ⟨ref, false, none, some e⟩)
    ∧ ∀ (df : List PoRow) (p : PoPayload),
        p ∈ poPosted products sups bomT added_by_id df →
        poGrp df p.reference = grp → p.reference ≠ ref := by
  have hgs := get_supplier_details_rejects sups (grp.headI).supplier hname hbelow
  have hberr : build_po_payload products sups bomT added_by_id ref grp
      = Except.error (supplierFailMsg (grp.headI).supplier
          (supplierFold (clean_supplier_name (grp.headI).supplier) sups)) := by
    unfold build_po_payload
    simp only [hgs]
  constructor
  · refine ⟨supplierFailMsg (grp.headI).supplier
      (supplierFold (clean_supplier_name (grp.headI).supplier) sups), hgs, hberr, ?_⟩
    unfold pushOnePO
    rw [hberr]
  · intro df p hp hgrp hrefeq
    unfold poPosted at hp
    rcases poPosted_mem_aux products sups bomT added_by_id df (poKeys df) [] p hp
      with hin | ⟨k2, hk2, pl, hb, hpin⟩
    · exact absurd hin (List.not_mem_nil p)
    · have hrefk : p.reference = k2 :=
        build_po_reference products sups bomT added_by_id k2 (poGrp df k2) pl hb p hpin
      rw [hrefk] at hrefeq hgrp
      subst hrefeq
      rw [hgrp, hberr] at hb
      exact absurd hb (by simp)

/-- Witness for C4 (amended): a supplier name scoring 0 against the table is
rejected at build time and recorded as a failed push result. -/
theorem supplier_below_threshold_amended_witness :
    ∃ e, get_supplier_details [⟨1, "ACME LTD", "ACMELTD"⟩] (some "ZZZZZZ")
        = Except.error e
      ∧ pushOnePO ["AB-12"] [⟨1, "ACME LTD", "ACMELTD"⟩] (fun _ => []) (some 1)
          (fun _ => Except.ok (200, "ok")) "P"
          [⟨"P", "Avondale", "ZZZZZZ", "AB-12", "", 1, 1, "D"⟩]
        = ⟨"P", false, none, some e⟩ := by
  obtain ⟨⟨e, h1, h2, h3⟩, _⟩ := supplier_below_threshold_amended ["AB-12"]
    [⟨1, "ACME LTD", "ACMELTD"⟩] (fun _ => []) (some 1)
    (fun _ => Except.ok (200, "ok")) "P"
    [⟨"P", "Avondale", "ZZZZZZ", "AB-12", "", 1, 1, "D"⟩]
    (by decide)
    (by intro row hrow
        rw [List.mem_singleton] at hrow
        subst hrow
        have hcl : clean_supplier_name "ZZZZZZ" = "ZZZZZZ" := by decide
        have hr : seqRatio "ZZZZZZ" "ACMELTD" = (2 * 0 : ℚ) / 13 :=
          seqRatio_eval (by decide) (by decide) (by decide)
        show seqRatio (clean_supplier_name "ZZZZZZ") "ACMELTD" < 2 / 5
        rw [hcl, hr]
        norm_num)
  exact ⟨e, h1, h3⟩

/-- Claim C5 (counterexample): a batch containing the unknown code `ZZZ-99`
is not rejected as a whole — the group holding it is recorded as a build
failure naming the code, but the sibling group is still built and POSTed,
so one order is posted, not zero. -/
theorem missing_code_counterexample :
    push_purchase_orders ["AB-12"] [] (fun _ => []) (some 1)
        (fun _ => Except.ok (200, "created"))
        [⟨"G1", "Avondale", "", "ZZZ-99", "", 1, 1, "D"⟩,
         ⟨"G2", "Avondale", "", "AB-12", "", 1, 1, "D"⟩]
      = [⟨"G1", false, none,
            some "Invalid Override Code ZZZ-99 — not found in Products.csv"⟩,
         ⟨"G2", true, some "created", none⟩]
    ∧ (poPosted ["AB-12"] [] (fun _ => []) (some 1)
        [⟨"G1", "Avondale", "", "ZZZ-99", "", 1, 1, "D"⟩,
         ⟨"G2", "Avondale", "", "AB-12", "", 1, 1, "D"⟩]).length = 1 := by
  exact ⟨by decide, rfl⟩

/-- Claim C5 (amended): a Purchase-Order group whose build raises — in
particular one whose first row's resolved code is absent from the product
catalog, which raises an exception naming that code — never reaches the POST
step: no POSTed payload carries its reference, its result records the
failure, and for a single-group batch zero orders are posted; but sibling
groups are still built and pushed, so the rejection is per-group, not a
batch-wide halt. -/
theorem missing_code_amended (products : List String) (sups : List SupplierRow)
    (bomT : String → List BomComponent) (added_by_id : Option Int)
    (post : List PoPayload → Except String (Int × String)) (df : List PoRow)
    (k : String) (e : String)
    (hberr : build_po_payload products sups bomT added_by_id k (poGrp df k)
      = Except.error e) :
    (∀ p ∈ poPosted products sups bomT added_by_id df, p.reference ≠ k)
    ∧ pushOnePO products sups bomT added_by_id post k (poGrp df k)
        = ⟨k, false, none, some e⟩
    ∧ push_purchase_orders products sups bomT added_by_id post df
        = (poKeys df).map
            (fun k2 => pushOnePO products sups bomT added_by_id post k2 (poGrp df k2))
    ∧ (∀ (sup : SupplierMatch) (r : PoRow) (rest : List PoRow),
        get_supplier_details sups (some ((r :: rest).headI).supplier)
          = Except.ok sup →
        poRowCode r ∉ products →
        build_po_payload products sups bomT added_by_id k (r :: rest)
          = Except.error ("Invalid Override Code " ++ poRowCode r
              ++ " — not found in Products.csv"))
    ∧ (poKeys df = [k] → poPosted products sups bomT added_by_id df = []) := by
  refine ⟨?_, ?_,
    push_purchase_orders_eq_map products sups bomT added_by_id post df, ?_, ?_⟩
  · intro p hp hrefeq
    unfold poPosted at hp
    rcases poPosted_mem_aux products sups bomT added_by_id df (poKeys df) [] p hp
      with hin | ⟨k2, hk2, pl, hb, hpin⟩
    · exact absurd hin (List.not_mem_nil p)
    · have hrefk : p.reference = k2 :=
        build_po_reference products sups bomT added_by_id k2 (poGrp df k2) pl hb p hpin
      rw [hrefk] at hrefeq
      subst hrefeq
      rw [hberr] at hb
      exact absurd hb (by simp)
  · unfold pushOnePO
    rw [hberr]
  · intro sup r rest hsup hnot
    unfold build_po_payload
    simp only [hsup]
    have hrow : poRowLines products bomT r
        = Except.error ("Invalid Override Code " ++ poRowCode r
            ++ " — not found in Products.csv") := by
      unfold poRowLines
      rw [if_neg hnot]
    simp only [mapExcept, hrow]
  · intro hkeys
    unfold poPosted
    rw [hkeys]
    simp only [List.foldl_cons, List.foldl_nil, hberr]

/-- Witness for C5 (amended): a single-group batch whose only code is
unknown records a build failure naming the code and posts nothing. -/
theorem missing_code_amended_witness :
    pushOnePO ["AB-12"] [] (fun _ => []) (some 1)
        (fun _ => Except.ok (200, "ok")) "G1"
        (poGrp [⟨"G1", "Avondale", "", "ZZZ-99", "", 1, 1, "D"⟩] "G1")
      = ⟨"G1", false, none,
          some "Invalid Override Code ZZZ-99 — not found in Products.csv"⟩
    ∧ poPosted ["AB-12"] [] (fun _ => []) (some 1)
        [⟨"G1", "Avondale", "", "ZZZ-99", "", 1, 1, "D"⟩] = [] := by
  obtain ⟨h1, h2, h3, h4, h5⟩ := missing_code_amended ["AB-12"] [] (fun _ => [])
    (some 1) (fun _ => Except.ok (200, "ok"))
    [⟨"G1", "Avondale", "", "ZZZ-99", "", 1, 1, "D"⟩] "G1"
    "Invalid Override Code ZZZ-99 — not found in Products.csv" rfl
  exact ⟨h2, h5 rfl⟩

/-- Claim C8 (counterexample): supplier `3M` matches its own catalog entry
with score 1 and is accepted, but the produced abbreviation `3M` contains a
digit and has length 2 — it is the first four characters of the normalized
name truncated, not the first four alphabetic characters padded to four. -/
theorem supplier_abbr_counterexample :
    get_supplier_details [⟨5, "3M", "3M"⟩] (some "3M") = Except.ok ⟨some 5, "3M"⟩
    ∧ '3' ∈ ("3M" : String).data ∧ specAlphaChar '3' = false
    ∧ ("3M" : String).length ≠ 4 := by
  refine ⟨?_, by decide, by decide, by decide⟩
  have hclean : clean_supplier_name "3M" = "3M" := by decide
  have hsc : seqRatio "3M" "3M" = 1 := by
    have h := seqRatio_eval (a := "3M") (b := "3M") (M := 2) (T := 4)
      (by decide) (by decide) (by decide)
    rw [h]
    norm_num
  have hfold : supplierFold (clean_supplier_name "3M") [⟨5, "3M", "3M"⟩]
      = (some 5, seqRatio (clean_supplier_name "3M") "3M", "3M") := by
    exact supplierFold_first_aux (clean_supplier_name "3M") [⟨5, "3M", "3M"⟩] 0
      (by decide) (none, 0, "")
      (by show (0 : ℚ) < seqRatio (clean_supplier_name "3M") "3M"
          rw [hclean, hsc]
          norm_num)
      (by intro j hj
          have hj2 : j < 1 := hj
          interval_cases j
          exact le_refl _)
      (by intro j hj
          exact absurd hj (Nat.not_lt_zero j))
  have hacc := get_supplier_details_accepts [⟨5, "3M", "3M"⟩] "3M" 5
    (seqRatio (clean_supplier_name "3M") "3M") "3M" (by decide) hfold (by decide)
    (by rw [hclean, hsc]; norm_num)
  rw [hacc, hclean]
  rfl

/-- Claim C8 (amended): for every accepted supplier match the abbreviation is
the first four characters of the normalized supplier name — which may include
digits — truncated to at most four without padding, with fallback `SUPP` for
an empty normalization; the Acme scenario holds as stated: the raw text
normalizes to `ACMEANDSONSLTD`, matches the identically-normalized entry with
score 1, is accepted, and abbreviates to `ACME`. -/
theorem supplier_abbr_amended :
    (∀ (sups : List SupplierRow) (name : String) (sup : SupplierMatch),
      name ≠ "" →
      get_supplier_details sups (some name) = Except.ok sup →
      sup.abbr = (if clean_supplier_name name = "" then "SUPP"
        else (clean_supplier_name name).take 4))
    ∧ clean_supplier_name "Acme & Sons Limited" = "ACMEANDSONSLTD"
    ∧ clean_supplier_name "Acme and Sons Ltd" = "ACMEANDSONSLTD"
    ∧ seqRatio "ACMEANDSONSLTD" "ACMEANDSONSLTD" = 1
    ∧ get_supplier_details [⟨1, "Acme and Sons Ltd", "ACMEANDSONSLTD"⟩]
        (some "Acme & Sons Limited") = Except.ok ⟨some 1, "ACME"⟩ := by
  have hclean : clean_supplier_name "Acme & Sons Limited" = "ACMEANDSONSLTD" := by
    decide
  have hsc : seqRatio "ACMEANDSONSLTD" "ACMEANDSONSLTD" = 1 := by
    have h := seqRatio_eval (a := "ACMEANDSONSLTD") (b := "ACMEANDSONSLTD")
      (M := 14) (T := 28) (by decide) (by decide) (by decide)
    rw [h]
    norm_num
  refine ⟨?_, hclean, by decide, hsc, ?_⟩
  · intro sups name sup hne h
    simp only [get_supplier_details, if_neg hne] at h
    cases hb : (supplierFold (clean_supplier_name name) sups).1 with
    | none =>
      simp only [hb] at h
      exact absurd h (by simp)
    | some bid =>
      simp only [hb] at h
      by_cases hcond : bid ≠ 0
          ∧ (2 : ℚ) / 5 ≤ (supplierFold (clean_supplier_name name) sups).2.1
      · rw [if_pos hcond] at h
        have heq := Except.ok.inj h
        rw [← heq]
      · rw [if_neg hcond] at h
        exact absurd h (by simp)
  · have hfold : supplierFold (clean_supplier_name "Acme & Sons Limited")
        [⟨1, "Acme and Sons Ltd", "ACMEANDSONSLTD"⟩]
        = (some 1, seqRatio (clean_supplier_name "Acme & Sons Limited")
            "ACMEANDSONSLTD", "Acme and Sons Ltd") := by
      exact supplierFold_first_aux (clean_supplier_name "Acme & Sons Limited")
        [⟨1, "Acme and Sons Ltd", "ACMEANDSONSLTD"⟩] 0 (by decide) (none, 0, "")
        (by show (0 : ℚ) < seqRatio (clean_supplier_name "Acme & Sons Limited")
              "ACMEANDSONSLTD"
            rw [hclean, hsc]
            norm_num)
        (by intro j hj
            have hj2 : j < 1 := hj
            interval_cases j
            exact le_refl _)
        (by intro j hj
            exact absurd hj (Nat.not_lt_zero j))
    have hacc := get_supplier_details_accepts
      [⟨1, "Acme and Sons Ltd", "ACMEANDSONSLTD"⟩] "Acme & Sons Limited" 1
      (seqRatio (clean_supplier_name "Acme & Sons Limited") "ACMEANDSONSLTD")
      "Acme and Sons Ltd" (by decide) hfold (by decide)
      (by rw [hclean, hsc]; norm_num)
    rw [hacc, hclean]
    rfl

/-- Witness for C8 (amended): the abbreviation rule instantiated at the Acme
scenario. -/
theorem supplier_abbr_amended_witness :
    (⟨some 1, "ACME"⟩ : SupplierMatch).abbr
      = (if clean_supplier_name "Acme & Sons Limited" = "" then "SUPP"
         else (clean_supplier_name "Acme & Sons Limited").take 4) := by
  exact supplier_abbr_amended.1 [⟨1, "Acme and Sons Ltd", "ACMEANDSONSLTD"⟩]
    "Acme & Sons Limited" ⟨some 1, "ACME"⟩ (by decide)
    supplier_abbr_amended.2.2.2.2

end PM7
